import Mathlib

/-!
Shallow embedding of `ez_fuzzbenedict` (src/ez_fuzzbenedict/__init__.py):
a fuzzy-matching accessor layer over a nested mapping.  The nested-mapping
container (python-benedict) and the similarity scorer (rapidfuzz) are
external collaborators; they are modelled from the boundary
contracts the spec gives (spec sections 2 and 6), while every function of the repository
itself is translated line-by-line from the source.
-/

namespace FuzzBen

/-- Keys of the underlying mapping: strings, or other hashable scalars
(integers suffice for the behaviours the repository exercises). -/
inductive PyKey where
  | kStr : String → PyKey
  | kInt : Int → PyKey
deriving DecidableEq, Repr

/-- Python `str()` of a key, as used in line 212 of the source
(`keys = [ str(k) for k in current_dict.keys() ]`). -/
def PyKey.pyStr : PyKey → String
  | .kStr s => s
  | .kInt n => toString n

/-- A node of the tree: a mapping (association list, insertion-ordered as a
Python dict with distinct keys), or a scalar leaf. -/
inductive PyVal where
  | pdict : List (PyKey × PyVal) → PyVal
  | pstr : String → PyVal
  | pint : Int → PyVal

/-- Lookup of a key directly inside one mapping level (Python `d[k]` for a
plain key, first occurrence wins). -/
def dictGet : List (PyKey × PyVal) → PyKey → Option PyVal
  | [], _ => none
  | (k, v) :: rest, q => if k = q then some v else dictGet rest q

/-- The `str()` forms of the keys of one mapping level, in insertion order
(line 212 of the source). -/
def dictKeysStr (es : List (PyKey × PyVal)) : List String :=
  es.map (fun e => e.1.pyStr)

/-- Splitting a string on a separator character, as Python `str.split`
does: the empty string yields one empty part, and `n` separators yield
`n + 1` parts.  The configured keypath separator of the container is a
single character. -/
def splitAux (sep : Char) : List Char → List Char → List String
  | [], acc => [acc.reverse.asString]
  | c :: cs, acc =>
      if c = sep then acc.reverse.asString :: splitAux sep cs []
      else splitAux sep cs (c :: acc)

/-- Python `s.split(sep)` for a one-character separator. -/
def pySplit (s : String) (sep : Char) : List String :=
  splitAux sep s.toList []

/-- Modelled from the spec: exact traversal of the external mapping
container along a list of string keys (spec section 6, "indexed access by
exact key"); a non-mapping node with keys left over is a miss. -/
def lookupKeys : PyVal → List String → Option PyVal
  | v, [] => some v
  | .pdict es, k :: rest =>
      match dictGet es (.kStr k) with
      | some v => lookupKeys v rest
      | none => none
  | _, _ :: _ => none

/-- Modelled from the spec: exact keypath lookup of the external mapping
container (benedict `__getitem__` on a string key): the path splits on the
configured separator and is traversed key by key. -/
def benGet (root : List (PyKey × PyVal)) (sep : Char) (path : String) :
    Option PyVal :=
  lookupKeys (.pdict root) (pySplit path sep)

/-- One element of a tuple or list query: a string segment, or a non-string
scalar (modelled by an integer) which the scorer rejects. -/
inductive Seg where
  | s : String → Seg
  | i : Int → Seg
deriving DecidableEq, Repr

/-- A caller-supplied key (the `Key` alias of the source): a keypath
string, a list or tuple of segments, or an invalid value such as an
integer or a frozenset. -/
inductive Query where
  | qStr : String → Query
  | qList : List Seg → Query
  | qTuple : List Seg → Query
  | qInt : Int → Query
  | qFrozenset : Query

/-- The raw key a list/tuple element denotes when the container traverses a
keylist. -/
def segKey : Seg → PyKey
  | .s s => .kStr s
  | .i n => .kInt n

/-- Modelled from the spec: traversal of the external container along a
keylist (benedict treats list and tuple keys as key sequences); an empty
keylist yields no item. -/
def keylistGet (root : List (PyKey × PyVal)) : List Seg → Option PyVal
  | [] => none
  | sg :: rest =>
      match dictGet root (segKey sg) with
      | some v => lookupKeys v (rest.map (fun r => (segKey r).pyStr))
      | none => none

/-- Modelled from the spec: membership test of the external container and
exact lookup, used by the fast path of `_get_with_fuzzy_matching`
(`if key in self: return super().__getitem__(key)`): string keys resolve
as keypaths, lists and tuples as keylists, other hashables as plain
top-level keys (a frozenset key never occurs in the trees modelled here). -/
def exactGet (root : List (PyKey × PyVal)) (sep : Char) : Query → Option PyVal
  | .qStr s => benGet root sep s
  | .qList segs => keylistGet root segs
  | .qTuple segs => keylistGet root segs
  | .qInt n => dictGet root (.kInt n)
  | .qFrozenset => none

/-- Modelled from the spec: one character of the normalizing
preprocessor of the scorer — alphanumeric characters are lowercased, everything else
becomes whitespace (spec section 6, "lowercasing, whitespace collapsing"). -/
def procChar (c : Char) : Char :=
  if c.isAlphanum then c.toLower else ' '

/-- Trimming the whitespace produced by the preprocessor from both ends
(after `procChar`, every whitespace character is a plain space). -/
def pyTrim (l : List Char) : List Char :=
  ((l.dropWhile (fun c => c = ' ')).reverse.dropWhile (fun c => c = ' ')).reverse

/-- Modelled from the spec: the normalizing preprocessor of the scorer
(rapidfuzz `utils.default_process`): lowercase, replace non-alphanumeric
characters with whitespace, trim the ends. -/
def default_process (s : String) : String :=
  (pyTrim (s.toList.map procChar)).asString

/-- Modelled from the spec: the external similarity scorer on two already
preprocessed strings, returning an integer score 0–100.  Every theorem
below is parametric in it. -/
abbrev Scorer := String → String → Nat

/-- Fold selecting the best-scoring candidate; a later candidate replaces
the current best only on a strictly greater score, so the earliest maximum
wins (spec: "ties resolve to whichever key the Similarity Scorer returns
first"). -/
def bestFrom (S : Scorer) (pq : String) : String × Nat → List String → String × Nat
  | best, [] => best
  | (bk, bs), k :: ks =>
      let sc := S pq (default_process k)
      if bs < sc then bestFrom S pq (k, sc) ks else bestFrom S pq (bk, bs) ks

/-- Modelled from the spec: rapidfuzz `process.extractOne` with
`utils.default_process` — preprocess the query and every candidate, return
the original text of the best candidate together with its score; an empty
candidate list yields None. -/
def extractOne (S : Scorer) (q : String) : List String → Option (String × Nat)
  | [] => none
  | k :: ks =>
      let pq := default_process q
      some (bestFrom S pq (k, S pq (default_process k)) ks)

/-- Outcome of `_get_closest_key_path`: a returned path string, a returned
None (NotFound), a raised TypeError, or a raised KeyError escaping from the
`current_dict[match]` indexing. -/
inductive FOut where
  | found : String → FOut
  | notFound : FOut
  | typeErr : FOut
  | keyErr : FOut
deriving DecidableEq, Repr

/-- Indexing `current_dict[match]` inside the matching loop (line 217).
At the root level `current_dict` is `self`, whose `__getitem__` (with
fuzzy matching disabled, the configuration every claim runs under) falls
back on `default_factory` when the exact lookup misses; deeper levels are
plain container nodes without that fallback. -/
def loopIndex (df : Option PyVal) (isRoot : Bool) (sep : Char)
    (es : List (PyKey × PyVal)) (m : String) : Option PyVal :=
  match benGet es sep m with
  | some v => some v
  | none => if isRoot then df else none

/-- The per-segment matching loop of `_get_closest_key_path`
(lines 206–219): reject non-mapping nodes with None, score the segment
against the `str()` forms of the live keys, fail with None below the
threshold, otherwise descend through the matched key; at the end the
matched parts are joined with the literal "." of line 219. -/
def fuzzLoop (S : Scorer) (df : Option PyVal) (sep : Char) (t : Nat) :
    Bool → PyVal → List Seg → List String → FOut
  | _, _, [], acc => .found (String.intercalate "." acc)
  | isRoot, cur, part :: rest, acc =>
      match cur with
      | .pdict es =>
          match part with
          | .i _ => .typeErr
          | .s p =>
              match extractOne S p (dictKeysStr es) with
              | none => .typeErr
              | some (m, sc) =>
                  if sc < t then .notFound
                  else
                    match loopIndex df isRoot sep es m with
                    | some child => fuzzLoop S df sep t false child rest (acc ++ [m])
                    | none => .keyErr
      | _ => .notFound

/-- Embedding of `FuzzBenedict._get_closest_key_path` (lines 188–219): a
string query splits on the configured separator, a tuple is used as its
list of parts, and any other query type raises TypeError.  A non-string
part raises TypeError when the scorer preprocesses it, as does unpacking
the None that `extractOne` returns for an empty candidate list. -/
def get_closest_key_path (S : Scorer) (df : Option PyVal) (sep : Char)
    (root : List (PyKey × PyVal)) (query : Query) (t : Nat) : FOut :=
  match query with
  | .qStr s => fuzzLoop S df sep t true (.pdict root) ((pySplit s sep).map Seg.s) []
  | .qTuple segs => fuzzLoop S df sep t true (.pdict root) segs []
  | _ => .typeErr

/-- Result of `_get_with_fuzzy_matching` / `fuzzy_get`: a returned value,
a raised KeyError, or a raised TypeError. -/
inductive FBOut where
  | val : PyVal → FBOut
  | keyError : FBOut
  | typeError : FBOut

/-- The list-to-tuple normalization of lines 177–178
(`if isinstance(key, list): key = tuple(key)`). -/
def normalizeKey : Query → Query
  | .qList segs => .qTuple segs
  | k => k

/-- Embedding of `FuzzBenedict._get_with_fuzzy_matching` (lines 159–185):
exact fast path first; then lists become tuples, the closest key path is
computed, a found path is looked up exactly (bypassing `default_factory`),
a None outcome falls back on `default_factory` or raises KeyError, and an
escaping TypeError or KeyError propagates. -/
def get_with_fuzzy_matching (S : Scorer) (df : Option PyVal) (sep : Char)
    (root : List (PyKey × PyVal)) (key : Query) (t : Nat) : FBOut :=
  match exactGet root sep key with
  | some v => .val v
  | none =>
      match get_closest_key_path S df sep root (normalizeKey key) t with
      | .found p =>
          match benGet root sep p with
          | some v => .val v
          | none => .keyError
      | .notFound =>
          match df with
          | some d => .val d
          | none => .keyError
      | .typeErr => .typeError
      | .keyErr => .keyError

/-- Embedding of the class-level `FuzzBenedict.Config` object
(lines 31–40): a single record shared by all instances, never one per
instance. -/
structure Config where
  fuzzy_key_enabled : Bool
  fuzzy_threshold : Nat
deriving DecidableEq, Repr

/-- The class defaults of `Config`. -/
def Config.classDefault : Config := ⟨false, 75⟩

/-- Per-instance state established by `__init__` (lines 42–58): only the
dict contents and `default_factory` live on the instance; the threshold
and the fuzzy flag do not. -/
structure FBInst where
  data : List (PyKey × PyVal)
  default_factory : Option PyVal

/-- Python truthiness of `a or b` for an optional integer: None and 0 are
both falsy. -/
def pyOrNat : Option Nat → Nat → Nat
  | none, d => d
  | some 0, d => d
  | some (n + 1), _ => n + 1

/-- Embedding of the configuration effect of `__init__` (line 58):
`self.Config.fuzzy_threshold = threshold or self.Config.fuzzy_threshold`,
a write to the shared class-level record. -/
def initConfig (cfg : Config) (threshold : Option Nat) : Config :=
  { cfg with fuzzy_threshold := pyOrNat threshold cfg.fuzzy_threshold }

/-- Embedding of the `threshold` property getter (lines 83–91): it reads
the shared `Config`, ignoring which instance is asked. -/
def thresholdGet (_inst : FBInst) (cfg : Config) : Nat :=
  cfg.fuzzy_threshold

/-- Embedding of the `threshold` property setter (lines 93–101): it writes
the shared `Config`, ignoring which instance performs the write. -/
def thresholdSet (_inst : FBInst) (v : Nat) (cfg : Config) : Config :=
  { cfg with fuzzy_threshold := v }

/-- Embedding of the `fuzzy_key_enabled` property getter (lines 103–111). -/
def fuzzyKeyEnabledGet (_inst : FBInst) (cfg : Config) : Bool :=
  cfg.fuzzy_key_enabled

/-- Embedding of the `fuzzy_key_enabled` property setter (lines 113–121). -/
def fuzzyKeyEnabledSet (_inst : FBInst) (v : Bool) (cfg : Config) : Config :=
  { cfg with fuzzy_key_enabled := v }

/-- Embedding of `fuzzy_get` (lines 146–157): the effective threshold is
`with_threshold or self.threshold` (Python truthiness), then it delegates
to `_get_with_fuzzy_matching`. -/
def fuzzy_get (S : Scorer) (sep : Char) (inst : FBInst) (cfg : Config)
    (key : Query) (with_threshold : Option Nat) : FBOut :=
  get_with_fuzzy_matching S inst.default_factory sep inst.data key
    (pyOrNat with_threshold (thresholdGet inst cfg))

/-- The threshold-free trace of the matching loop: the matched keys and the
best scores it encounters level by level, defined when every level has a
mapping node, a string segment, at least one candidate, and an indexing
step that succeeds.  `fuzzLoop` succeeds at threshold `t` exactly on the
traces whose scores all reach `t`. -/
def traceLoop (S : Scorer) (df : Option PyVal) (sep : Char) :
    Bool → PyVal → List Seg → Option (List String × List Nat)
  | _, _, [] => some ([], [])
  | isRoot, cur, part :: rest =>
      match cur with
      | .pdict es =>
          match part with
          | .i _ => none
          | .s p =>
              match extractOne S p (dictKeysStr es) with
              | none => none
              | some (m, sc) =>
                  match loopIndex df isRoot sep es m with
                  | some child =>
                      match traceLoop S df sep false child rest with
                      | some (ms, scs) => some (m :: ms, sc :: scs)
                      | none => none
                  | none => none
      | _ => none

/-- The image of a query segment under the preprocessor of the scorer: the
matching loop consults a string segment only through `default_process`,
and rejects every non-string segment the same way. -/
def procSeg : Seg → Option String
  | .s s => some (default_process s)
  | .i _ => none

/-- The two reasons the spec names for a NotFound (None) outcome of the
matching loop, localized along the greedy traversal: the current node is
not a mapping while segments remain, or the best score of the current
segment falls strictly below the threshold; `deeper` carries a cause past
one accepted segment. -/
inductive NFCause (S : Scorer) (df : Option PyVal) (sep : Char) (t : Nat) :
    Bool → PyVal → List Seg → Prop where
  | nonMapping {isRoot cur part rest} :
      (∀ es, cur ≠ .pdict es) →
      NFCause S df sep t isRoot cur (part :: rest)
  | lowScore {isRoot es p rest m sc} :
      extractOne S p (dictKeysStr es) = some (m, sc) →
      sc < t →
      NFCause S df sep t isRoot (.pdict es) (.s p :: rest)
  | deeper {isRoot es p rest m sc child} :
      extractOne S p (dictKeysStr es) = some (m, sc) →
      t ≤ sc →
      loopIndex df isRoot sep es m = some child →
      NFCause S df sep t false child rest →
      NFCause S df sep t isRoot (.pdict es) (.s p :: rest)

/-- A similarity scorer for concrete instances: 100 for preprocessed
equality, 0 otherwise. -/
def S0 : Scorer := fun a b => if a = b then 100 else 0

/-- A similarity scorer for concrete instances that also scores the
misspelling "alphaa" against the key "alpha" at 90. -/
def Sdemo : Scorer := fun a b =>
  if a = b then 100 else if a = "alphaa" ∧ b = "alpha" then 90 else 0

/-- The nested tree of the test fixtures of the repository. -/
def T0 : List (PyKey × PyVal) :=
  [ (.kStr "person", .pdict
      [ (.kStr "name", .pstr "John Doe"),
        (.kStr "address", .pdict
          [ (.kStr "city", .pstr "New York"),
            (.kStr "zipcode", .pint 10001) ]) ]),
    (.kStr "people", .pdict
      [ (.kStr "name", .pstr "Jane Doe") ]) ]

/-- A tree whose only key is the integer 42, as in the
`test_non_hashable_keys` fixture. -/
def T42 : List (PyKey × PyVal) :=
  [ (.kInt 42, .pstr "number") ]

/-- A two-level tree for exercising a non-default keypath separator. -/
def Talpha : List (PyKey × PyVal) :=
  [ (.kStr "alpha", .pdict [ (.kStr "beta", .pint 1) ]) ]

/-- A tree with the single key "Temperature", as in the
`test_case_sensitivity` fixture. -/
def Ttemp : List (PyKey × PyVal) :=
  [ (.kStr "Temperature", .pint 25) ]

/-- A first concrete instance (empty data, no default factory). -/
def IA : FBInst := ⟨[], none⟩

/-- A second, distinct concrete instance. -/
def IB : FBInst := ⟨T0, some (.pint 0)⟩

/-- Python `or` keeps a nonzero integer override. -/
theorem pyOrNat_pos (t d : Nat) (h : t ≠ 0) : pyOrNat (some t) d = t := by
  cases t with
  | zero => exact absurd rfl h
  | succ n => rfl

/-- The matching loop consults a query segment only through the
preprocessor, so `extractOne` agrees on segments with equal preprocessed
forms. -/
theorem extractOne_proc_congr (S : Scorer) {p q : String}
    (h : default_process p = default_process q) (ks : List String) :
    extractOne S p ks = extractOne S q ks := by
  cases ks with
  | nil => rfl
  | cons k ks => simp only [extractOne]; rw [h]

/-- Inversion of one successful step of the trace: a defined trace on a
nonempty segment list starts at a mapping node with a string segment, a
best candidate, and a successful indexing step. -/
theorem trace_cons (S : Scorer) (df : Option PyVal) (sep : Char)
    {isRoot : Bool} {cur : PyVal} {part : Seg} {rest : List Seg}
    {ms : List String} {scs : List Nat}
    (h : traceLoop S df sep isRoot cur (part :: rest) = some (ms, scs)) :
    ∃ es p m sc child ms2 scs2,
      cur = .pdict es ∧ part = .s p ∧
      extractOne S p (dictKeysStr es) = some (m, sc) ∧
      loopIndex df isRoot sep es m = some child ∧
      traceLoop S df sep false child rest = some (ms2, scs2) ∧
      ms = m :: ms2 ∧ scs = sc :: scs2 := by
  cases cur with
  | pstr s => simp [traceLoop] at h
  | pint n => simp [traceLoop] at h
  | pdict es =>
      cases part with
      | i n => simp [traceLoop] at h
      | s p =>
          simp only [traceLoop] at h
          split at h
          · simp at h
          · rename_i m sc hx
            split at h
            · rename_i child hi
              split at h
              · rename_i ms2 scs2 ht
                simp only [Option.some.injEq, Prod.mk.injEq] at h
                exact ⟨es, p, m, sc, child, ms2, scs2, rfl, rfl, hx, hi, ht,
                  h.1.symm, h.2.symm⟩
              · simp at h
            · simp at h

/-- The trace matches one key per query segment. -/
theorem trace_length (S : Scorer) (df : Option PyVal) (sep : Char) :
    ∀ (parts : List Seg) (isRoot : Bool) (cur : PyVal)
      (ms : List String) (scs : List Nat),
    traceLoop S df sep isRoot cur parts = some (ms, scs) →
    ms.length = parts.length ∧ scs.length = parts.length := by
  intro parts
  induction parts with
  | nil =>
      intro isRoot cur ms scs h
      simp only [traceLoop, Option.some.injEq, Prod.mk.injEq] at h
      simp [← h.1, ← h.2]
  | cons part rest ih =>
      intro isRoot cur ms scs h
      obtain ⟨es, p, m, sc, child, ms2, scs2, _, _, _, _, ht, hm, hs⟩ :=
        trace_cons S df sep h
      obtain ⟨h1, h2⟩ := ih false child ms2 scs2 ht
      subst hm; subst hs
      simp [h1, h2]

/-- The matching loop returns a path exactly on the traces whose scores
all reach the threshold, and the path is the matched keys joined with the
literal dot. -/
theorem fuzz_found_iff (S : Scorer) (df : Option PyVal) (sep : Char) (t : Nat) :
    ∀ (parts : List Seg) (isRoot : Bool) (cur : PyVal) (acc : List String)
      (p : String),
    fuzzLoop S df sep t isRoot cur parts acc = .found p ↔
    ∃ ms scs, traceLoop S df sep isRoot cur parts = some (ms, scs) ∧
      (∀ x ∈ scs, t ≤ x) ∧ p = String.intercalate "." (acc ++ ms) := by
  intro parts
  induction parts with
  | nil =>
      intro isRoot cur acc p
      constructor
      · intro h
        simp only [fuzzLoop, FOut.found.injEq] at h
        exact ⟨[], [], rfl, by simp, by simp [← h]⟩
      · rintro ⟨ms, scs, htr, _, hp⟩
        simp only [traceLoop, Option.some.injEq, Prod.mk.injEq] at htr
        subst hp
        simp [fuzzLoop, ← htr.1]
  | cons part rest ih =>
      intro isRoot cur acc p
      constructor
      · intro h
        cases cur with
        | pstr s => simp [fuzzLoop] at h
        | pint n => simp [fuzzLoop] at h
        | pdict es =>
            cases part with
            | i n => simp [fuzzLoop] at h
            | s ps =>
                simp only [fuzzLoop] at h
                split at h
                · simp at h
                · rename_i m sc hx
                  split at h
                  · simp at h
                  · rename_i hsc
                    split at h
                    · rename_i child hi
                      obtain ⟨ms2, scs2, ht2, hall2, hp2⟩ :=
                        (ih false child (acc ++ [m]) p).mp h
                      refine ⟨m :: ms2, sc :: scs2, ?_, ?_, ?_⟩
                      · simp [traceLoop, hx, hi, ht2]
                      · intro x hx2
                        rcases List.mem_cons.mp hx2 with h1 | h2
                        · subst h1; exact Nat.le_of_not_lt hsc
                        · exact hall2 x h2
                      · rw [hp2, List.append_assoc]
                        rfl
                    · simp at h
      · rintro ⟨ms, scs, htr, hall, hp⟩
        obtain ⟨es, ps, m, sc, child, ms2, scs2, hcur, hpart, hx, hi, ht2, hm, hs⟩ :=
          trace_cons S df sep htr
        subst hcur; subst hpart; subst hm; subst hs
        have hle : t ≤ sc := hall sc (List.mem_cons_self sc scs2)
        simp only [fuzzLoop, hx, if_neg (Nat.not_lt.mpr hle), hi]
        refine (ih false child (acc ++ [m]) p).mpr ⟨ms2, scs2, ht2, ?_, ?_⟩
        · intro x hx2; exact hall x (List.mem_cons_of_mem sc hx2)
        · rw [hp, List.append_assoc]
          rfl

/-- A None outcome of the matching loop always has one of the two causes
the spec names. -/
theorem fuzz_notFound_to_cause (S : Scorer) (df : Option PyVal) (sep : Char)
    (t : Nat) :
    ∀ (parts : List Seg) (isRoot : Bool) (cur : PyVal) (acc : List String),
    fuzzLoop S df sep t isRoot cur parts acc = .notFound →
    NFCause S df sep t isRoot cur parts := by
  intro parts
  induction parts with
  | nil => intro isRoot cur acc h; simp [fuzzLoop] at h
  | cons part rest ih =>
      intro isRoot cur acc h
      cases cur with
      | pstr s => exact .nonMapping (fun es hes => PyVal.noConfusion hes)
      | pint n => exact .nonMapping (fun es hes => PyVal.noConfusion hes)
      | pdict es =>
          cases part with
          | i n => simp [fuzzLoop] at h
          | s ps =>
              simp only [fuzzLoop] at h
              split at h
              · simp at h
              · rename_i m sc hx
                split at h
                · rename_i hsc
                  exact .lowScore hx hsc
                · rename_i hsc
                  split at h
                  · rename_i child hi
                    exact .deeper hx (Nat.le_of_not_lt hsc) hi
                      (ih false child (acc ++ [m]) h)
                  · simp at h

/-- Each of the two causes the spec names forces the matching loop to
return None, whatever was already matched. -/
theorem cause_to_fuzz_notFound (S : Scorer) (df : Option PyVal) (sep : Char)
    (t : Nat) {isRoot : Bool} {cur : PyVal} {parts : List Seg}
    (hc : NFCause S df sep t isRoot cur parts) :
    ∀ acc, fuzzLoop S df sep t isRoot cur parts acc = .notFound := by
  induction hc with
  | nonMapping hne =>
      intro acc
      rename_i cur1 part1 rest1
      cases cur1 with
      | pdict es => exact absurd rfl (hne es)
      | pstr s => rfl
      | pint n => rfl
  | lowScore hx hsc =>
      intro acc
      simp [fuzzLoop, hx, hsc]
  | deeper hx hle hi hrec ihc =>
      intro acc
      simp only [fuzzLoop, hx, hi]
      rw [if_neg (Nat.not_lt.mpr hle)]
      exact ihc _

/-- The matching loop consults string segments only through the
preprocessor and rejects all non-string segments alike, so segment lists
with equal preprocessed images behave identically. -/
theorem fuzzLoop_proc_congr (S : Scorer) (df : Option PyVal) (sep : Char)
    (t : Nat) :
    ∀ (parts1 parts2 : List Seg), parts1.map procSeg = parts2.map procSeg →
    ∀ (isRoot : Bool) (cur : PyVal) (acc : List String),
    fuzzLoop S df sep t isRoot cur parts1 acc =
    fuzzLoop S df sep t isRoot cur parts2 acc := by
  intro parts1
  induction parts1 with
  | nil =>
      intro parts2 h
      cases parts2 with
      | nil => intro _ _ _; rfl
      | cons p2 r2 => simp at h
  | cons p1 r1 ih =>
      intro parts2 h
      cases parts2 with
      | nil => simp at h
      | cons p2 r2 =>
          simp only [List.map_cons, List.cons.injEq] at h
          obtain ⟨hp, hr⟩ := h
          intro isRoot cur acc
          cases cur with
          | pstr s => rfl
          | pint n => rfl
          | pdict es =>
              cases p1 with
              | i n1 =>
                  cases p2 with
                  | i n2 => rfl
                  | s s2 => simp [procSeg] at hp
              | s s1 =>
                  cases p2 with
                  | i n2 => simp [procSeg] at hp
                  | s s2 =>
                      simp only [procSeg, Option.some.injEq] at hp
                      simp only [fuzzLoop]
                      rw [extractOne_proc_congr S hp (dictKeysStr es)]
                      cases hx : extractOne S s2 (dictKeysStr es) with
                      | none => rfl
                      | some msc =>
                          obtain ⟨m, sc⟩ := msc
                          by_cases hsc : sc < t
                          · simp [hsc]
                          · simp only [if_neg hsc]
                            cases hi : loopIndex df isRoot sep es m with
                            | none => rfl
                            | some child => exact ih r2 hr false child (acc ++ [m])

/-- C1: a key path that exists exactly in the tree resolves through the
exact-match fast path of `_get_with_fuzzy_matching`: the value stored at
the path is returned for every threshold and every scorer, so per-segment
fuzzy scoring is bypassed entirely. -/
theorem exact_path_wins (S : Scorer) (df : Option PyVal) (sep : Char)
    (root : List (PyKey × PyVal)) (p : String) (v : PyVal) (t : Nat)
    (h : exactGet root sep (.qStr p) = some v) :
    get_with_fuzzy_matching S df sep root (.qStr p) t = .val v := by
  simp [get_with_fuzzy_matching, h]

/-- Witness for C1 at the fixture tree: the exact path "person.name"
resolves to its stored value at threshold 88. -/
theorem exact_path_wins_witness :
    get_with_fuzzy_matching S0 none '.' T0 (.qStr "person.name") 88 =
      .val (.pstr "John Doe") :=
  exact_path_wins S0 none '.' T0 "person.name" (.pstr "John Doe") 88 rfl

/-- C2: acceptance of a segment is inclusive at the threshold (the source
fails on `score < threshold`): on a query whose best-match score at every
level is `s`, resolution returns the matched path exactly for thresholds
`t ≤ s` and returns None (NotFound) for every threshold `t > s`. -/
theorem threshold_inclusive_boundary (S : Scorer) (df : Option PyVal)
    (sep : Char) (root : List (PyKey × PyVal)) (q : String) (s t : Nat)
    (ms : List String) (scs : List Nat)
    (htrace : traceLoop S df sep true (.pdict root)
      ((pySplit q sep).map Seg.s) = some (ms, scs))
    (hall : ∀ x ∈ scs, x = s)
    (hne : scs ≠ []) :
    (get_closest_key_path S df sep root (.qStr q) t =
      .found (String.intercalate "." ms) ↔ t ≤ s)
    ∧ (s < t → get_closest_key_path S df sep root (.qStr q) t = .notFound) := by
  have hred : get_closest_key_path S df sep root (.qStr q) t =
      fuzzLoop S df sep t true (.pdict root) ((pySplit q sep).map Seg.s) [] := rfl
  constructor
  · constructor
    · intro h
      rw [hred] at h
      obtain ⟨ms2, scs2, ht2, hall2, hp2⟩ :=
        (fuzz_found_iff S df sep t _ true (.pdict root) [] _).mp h
      rw [htrace] at ht2
      simp only [Option.some.injEq, Prod.mk.injEq] at ht2
      obtain ⟨hm, hs⟩ := ht2
      subst hm; subst hs
      cases scs with
      | nil => exact absurd rfl hne
      | cons sc0 scr =>
          have h1 : t ≤ sc0 := hall2 sc0 (List.mem_cons_self sc0 scr)
          have h2 : sc0 = s := hall sc0 (List.mem_cons_self sc0 scr)
          omega
    · intro hts
      rw [hred]
      refine (fuzz_found_iff S df sep t _ true (.pdict root) [] _).mpr
        ⟨ms, scs, htrace, ?_, rfl⟩
      intro x hx
      rw [hall x hx]
      exact hts
  · intro hst
    cases hp : (pySplit q sep).map Seg.s with
    | nil =>
        rw [hp] at htrace
        simp only [traceLoop, Option.some.injEq, Prod.mk.injEq] at htrace
        exact absurd htrace.2.symm hne
    | cons pt rest =>
        rw [hp] at htrace
        obtain ⟨es, ps, m, sc, child, ms2, scs2, hcur, hpart, hx, hi, ht2, hm, hs⟩ :=
          trace_cons S df sep htrace
        injection hcur with hes
        subst hes; subst hpart
        have hsc : sc = s := hall sc (by rw [hs]; exact List.mem_cons_self sc scs2)
        rw [hred, hp]
        simp only [fuzzLoop, hx]
        rw [if_pos (show sc < t by omega)]

/-- Witness for C2 at the fixture tree: the trace of "person.name" scores
100 at both levels, so threshold 100 still resolves and threshold 101
fails with NotFound. -/
theorem threshold_inclusive_boundary_witness :
    get_closest_key_path S0 none '.' T0 (.qStr "person.name") 100 =
      .found "person.name"
    ∧ get_closest_key_path S0 none '.' T0 (.qStr "person.name") 101 =
      .notFound :=
  ⟨(threshold_inclusive_boundary S0 none '.' T0 "person.name" 100 100
      ["person", "name"] [100, 100] rfl (by decide) (by decide)).1.mpr (by decide),
   (threshold_inclusive_boundary S0 none '.' T0 "person.name" 100 101
      ["person", "name"] [100, 100] rfl (by decide) (by decide)).2 (by decide)⟩

/-- C3: with a non-default separator the bug shows: the resolver splits
the query on the configured separator but joins the matched keys with the
literal dot of line 219, so the returned path is not the matched keys
joined by the configured separator, does not exist exactly in the tree,
and its subsequent exact lookup raises KeyError. -/
theorem separator_join_mismatch :
    get_closest_key_path Sdemo none '/' Talpha (.qStr "alphaa/beta") 75 =
      .found "alpha.beta"
    ∧ "alpha.beta" ≠ String.intercalate "/" ["alpha", "beta"]
    ∧ benGet Talpha '/' "alpha.beta" = none
    ∧ get_with_fuzzy_matching Sdemo none '/' Talpha (.qStr "alphaa/beta") 75 =
      .keyError :=
  ⟨rfl, by decide, rfl, rfl⟩

/-- Counterexample for C4: resolving the empty list does not raise
InvalidQueryType — it normalizes to the empty tuple, resolves to the empty
path, and the exact lookup of that path raises KeyError instead. -/
theorem empty_list_not_rejected :
    get_with_fuzzy_matching S0 none '.' T0 (.qList []) 75 = .keyError
    ∧ FBOut.keyError ≠ FBOut.typeError :=
  ⟨rfl, fun hcontra => FBOut.noConfusion hcontra⟩

/-- C4 (amended): the scalar 42 and a frozenset raise InvalidQueryType
(TypeError) before any traversal, and the tuple (1, 2, 3) raises it when
its first non-string segment reaches the scorer during traversal; the
empty list, however, is not rejected — it resolves to the empty path and
then fails with KeyError. -/
theorem invalid_query_types_amended (S : Scorer) (df : Option PyVal)
    (sep : Char) (root : List (PyKey × PyVal)) (t : Nat)
    (h42 : dictGet root (.kInt 42) = none)
    (htup : keylistGet root [.i 1, .i 2, .i 3] = none)
    (hemp : benGet root sep "" = none) :
    get_with_fuzzy_matching S df sep root (.qInt 42) t = .typeError
    ∧ get_with_fuzzy_matching S df sep root .qFrozenset t = .typeError
    ∧ get_with_fuzzy_matching S df sep root (.qTuple [.i 1, .i 2, .i 3]) t =
      .typeError
    ∧ get_with_fuzzy_matching S df sep root (.qList []) t = .keyError := by
  refine ⟨?_, rfl, ?_, ?_⟩
  · simp [get_with_fuzzy_matching, exactGet, h42, normalizeKey,
      get_closest_key_path]
  · simp [get_with_fuzzy_matching, exactGet, htup, normalizeKey,
      get_closest_key_path, fuzzLoop]
  · simp [get_with_fuzzy_matching, exactGet, keylistGet, normalizeKey,
      get_closest_key_path, fuzzLoop]
    rw [show String.intercalate "." ([] : List String) = "" from rfl, hemp]

/-- Witness for C4 (amended) at the fixture tree. -/
theorem invalid_query_types_amended_witness :
    get_with_fuzzy_matching S0 none '.' T0 (.qInt 42) 75 = .typeError
    ∧ get_with_fuzzy_matching S0 none '.' T0 .qFrozenset 75 = .typeError
    ∧ get_with_fuzzy_matching S0 none '.' T0 (.qTuple [.i 1, .i 2, .i 3]) 75 =
      .typeError
    ∧ get_with_fuzzy_matching S0 none '.' T0 (.qList []) 75 = .keyError :=
  invalid_query_types_amended S0 none '.' T0 75 rfl rfl rfl

/-- Counterexample for C5: a query normalizing to the empty segment list
does yield a resolved path — `_get_closest_key_path` returns the empty
string, not a TypeError. -/
theorem empty_tuple_resolves_to_empty_path :
    get_closest_key_path S0 none '.' T0 (.qTuple []) 75 = .found ""
    ∧ FOut.found "" ≠ FOut.typeErr :=
  ⟨rfl, by decide⟩

/-- C5 (amended): a query that normalizes to an empty segment list is not
rejected as InvalidQueryType: `_get_closest_key_path` returns the empty
resolved path, and `_get_with_fuzzy_matching` then fails with the KeyError
of the exact lookup of the empty path (whenever the empty path is not an
exact path of the tree). -/
theorem empty_query_amended (S : Scorer) (df : Option PyVal) (sep : Char)
    (root : List (PyKey × PyVal)) (t : Nat)
    (hemp : benGet root sep "" = none) :
    get_closest_key_path S df sep root (.qTuple []) t = .found ""
    ∧ get_with_fuzzy_matching S df sep root (.qTuple []) t = .keyError
    ∧ get_with_fuzzy_matching S df sep root (.qList []) t = .keyError := by
  refine ⟨rfl, ?_, ?_⟩
  · simp [get_with_fuzzy_matching, exactGet, keylistGet, normalizeKey,
      get_closest_key_path, fuzzLoop]
    rw [show String.intercalate "." ([] : List String) = "" from rfl, hemp]
  · simp [get_with_fuzzy_matching, exactGet, keylistGet, normalizeKey,
      get_closest_key_path, fuzzLoop]
    rw [show String.intercalate "." ([] : List String) = "" from rfl, hemp]

/-- Witness for C5 (amended) at the fixture tree. -/
theorem empty_query_amended_witness :
    get_closest_key_path S0 none '.' T0 (.qTuple []) 75 = .found ""
    ∧ get_with_fuzzy_matching S0 none '.' T0 (.qTuple []) 75 = .keyError
    ∧ get_with_fuzzy_matching S0 none '.' T0 (.qList []) 75 = .keyError :=
  empty_query_amended S0 none '.' T0 75 rfl

/-- C6: for a string query, `_get_closest_key_path` returns None exactly
when the greedy traversal reaches a non-mapping node with segments left or
a best score of some level falls strictly below the threshold; and a
returned path always covers every query segment (one matched key per
segment, all scores at or above the threshold) — no partial path is ever
returned. -/
theorem notfound_exactly_two_causes (S : Scorer) (df : Option PyVal)
    (sep : Char) (root : List (PyKey × PyVal)) (q : String) (t : Nat) :
    (get_closest_key_path S df sep root (.qStr q) t = .notFound ↔
      NFCause S df sep t true (.pdict root) ((pySplit q sep).map Seg.s))
    ∧ (∀ p, get_closest_key_path S df sep root (.qStr q) t = .found p →
        ∃ ms scs,
          traceLoop S df sep true (.pdict root) ((pySplit q sep).map Seg.s) =
            some (ms, scs)
          ∧ ms.length = (pySplit q sep).length
          ∧ (∀ x ∈ scs, t ≤ x)
          ∧ p = String.intercalate "." ms) := by
  constructor
  · constructor
    · exact fun h => fuzz_notFound_to_cause S df sep t _ true (.pdict root) [] h
    · exact fun hc => cause_to_fuzz_notFound S df sep t hc []
  · intro p h
    obtain ⟨ms, scs, ht, hall, hp⟩ :=
      (fuzz_found_iff S df sep t _ true (.pdict root) [] p).mp h
    refine ⟨ms, scs, ht, ?_, hall, by simpa using hp⟩
    have hlen := (trace_length S df sep _ true (.pdict root) ms scs ht).1
    simpa using hlen

/-- C7: fuzzy resolution is case- and whitespace-insensitive through the
normalizing preprocessor: whenever neither "TEMP" nor "temp" is an exact
path of the tree (as with the key "Temperature"), resolving the two
queries yields identical results at equal thresholds, for every scorer. -/
theorem resolve_case_insensitive (S : Scorer) (df : Option PyVal)
    (root : List (PyKey × PyVal)) (t : Nat)
    (h1 : exactGet root '.' (.qStr "TEMP") = none)
    (h2 : exactGet root '.' (.qStr "temp") = none) :
    get_with_fuzzy_matching S df '.' root (.qStr "TEMP") t =
    get_with_fuzzy_matching S df '.' root (.qStr "temp") t := by
  have hkey : get_closest_key_path S df '.' root (normalizeKey (.qStr "TEMP")) t =
      get_closest_key_path S df '.' root (normalizeKey (.qStr "temp")) t := by
    show fuzzLoop S df '.' t true (.pdict root)
        ((pySplit "TEMP" '.').map Seg.s) [] =
      fuzzLoop S df '.' t true (.pdict root) ((pySplit "temp" '.').map Seg.s) []
    exact fuzzLoop_proc_congr S df '.' t _ _ (by decide) true (.pdict root) []
  simp only [get_with_fuzzy_matching, h1, h2, hkey]

/-- Witness for C7 on the tree with the single key "Temperature". -/
theorem resolve_case_insensitive_witness :
    get_with_fuzzy_matching S0 none '.' Ttemp (.qStr "TEMP") 75 =
    get_with_fuzzy_matching S0 none '.' Ttemp (.qStr "temp") 75 :=
  resolve_case_insensitive S0 none Ttemp 75 rfl rfl

/-- C8: the threshold and the fuzzy flag live on the shared class-level
Config record: reading them ignores which instance is asked, constructing
any new instance with a nonzero threshold argument changes what every
other instance observes, and so does a property write through any
instance. -/
theorem config_shared_across_instances (a b : FBInst) (cfg : Config)
    (t v : Nat) (e : Bool) (ht : t ≠ 0) :
    thresholdGet a cfg = thresholdGet b cfg
    ∧ fuzzyKeyEnabledGet a cfg = fuzzyKeyEnabledGet b cfg
    ∧ thresholdGet b (initConfig cfg (some t)) = t
    ∧ thresholdGet b (thresholdSet a v cfg) = v
    ∧ fuzzyKeyEnabledGet b (fuzzyKeyEnabledSet a e cfg) = e :=
  ⟨rfl, rfl, pyOrNat_pos t cfg.fuzzy_threshold ht, rfl, rfl⟩

/-- Witness for C8 with two distinct concrete instances. -/
theorem config_shared_across_instances_witness :
    thresholdGet IA Config.classDefault = thresholdGet IB Config.classDefault
    ∧ fuzzyKeyEnabledGet IA Config.classDefault =
      fuzzyKeyEnabledGet IB Config.classDefault
    ∧ thresholdGet IB (initConfig Config.classDefault (some 90)) = 90
    ∧ thresholdGet IB (thresholdSet IA 95 Config.classDefault) = 95
    ∧ fuzzyKeyEnabledGet IB (fuzzyKeyEnabledSet IA true Config.classDefault) =
      true :=
  config_shared_across_instances IA IB Config.classDefault 90 95 true (by decide)

/-- C9: a call-scoped threshold override of 0 is ignored by the truthiness
of `or`: `fuzzy_get` with override 0 behaves as with no override and uses
the configured default, constructing with threshold 0 leaves the Config
unchanged, and every override of at least 1 is the threshold actually
used. -/
theorem fuzzy_get_zero_override_ignored (S : Scorer) (sep : Char)
    (inst : FBInst) (cfg : Config) (q : Query) :
    fuzzy_get S sep inst cfg q (some 0) = fuzzy_get S sep inst cfg q none
    ∧ fuzzy_get S sep inst cfg q none =
        get_with_fuzzy_matching S inst.default_factory sep inst.data q
          cfg.fuzzy_threshold
    ∧ (∀ t : Nat, 1 ≤ t →
        fuzzy_get S sep inst cfg q (some t) =
        get_with_fuzzy_matching S inst.default_factory sep inst.data q t)
    ∧ initConfig cfg (some 0) = cfg := by
  refine ⟨rfl, rfl, ?_, rfl⟩
  intro t htt
  cases t with
  | zero => omega
  | succ n => rfl

/-- C10: on a tree whose key is the integer 42, fuzzy resolution of the
query "42" matches the str() form of the key, indexes the mapping with
that string, and the resulting KeyError escapes `_get_closest_key_path`
mid-traversal instead of a NotFound outcome, and propagates out of
`_get_with_fuzzy_matching`. -/
theorem nonstring_key_uncaught_keyerror :
    get_closest_key_path S0 none '.' T42 (.qStr "42") 75 = .keyErr
    ∧ FOut.keyErr ≠ FOut.notFound
    ∧ get_with_fuzzy_matching S0 none '.' T42 (.qStr "42") 75 = .keyError :=
  ⟨rfl, by decide, rfl⟩

end FuzzBen
